import Mathlib

/-!
Verification of the mcp-openapi-server repository: a shallow embedding of
the spec-loading/caching logic, the tool-schema deriver, the request-body
reconstructor and the SSE stream aggregator, with theorems checking the
specification's claims against the code.

JS data is modelled by the `Value` type below; JS objects are association
lists in insertion order (JS string-keyed objects iterate in insertion
order, and assignment updates in place or appends).  Machine corners that
the claims never exercise — assigning a named property to an array, and
property writes on primitives/null (a `TypeError` in strict mode) — are
modelled as `Except.error`.
-/

/-- A JSON-like JS runtime value (functions, `undefined` and NaN are not
needed by any modelled code path).  `vObj` keeps fields in insertion
order, as JS does for string keys. -/
inductive Value where
  | vNull : Value
  | vBool : Bool → Value
  | vNum : Int → Value
  | vStr : String → Value
  | vArr : List Value → Value
  | vObj : List (String × Value) → Value
deriving Repr

/-- A JS object: fields in insertion order. -/
abbrev Obj := List (String × Value)

/-- Property read `o[k]`: the value at the first matching key
(keys are unique in objects produced by the modelled code). -/
def getKey : Obj → String → Option Value
  | [], _ => none
  | (k', v') :: rest, k => if k' = k then some v' else getKey rest k

/-- Property write `o[k] = v`: update in place if the key exists
(retaining its position), otherwise append — JS assignment semantics. -/
def setKey : Obj → String → Value → Obj
  | [], k, v => [(k, v)]
  | (k', v') :: rest, k, v =>
      if k' = k then (k, v) :: rest else (k', v') :: setKey rest k v

/-- JS truthiness of a value. -/
def truthy : Value → Bool
  | .vNull => false
  | .vBool b => b
  | .vNum n => n != 0
  | .vStr s => s ≠ ""
  | .vArr _ => true
  | .vObj _ => true

/-- JS `typeof v === "object"` (true for null, arrays and objects). -/
def isObjectType : Value → Bool
  | .vNull => true
  | .vArr _ => true
  | .vObj _ => true
  | _ => false

/-- The top-level keys of an object. -/
def keysOf (o : Obj) : List String := o.map Prod.fst

@[simp] theorem getKey_nil (k : String) : getKey [] k = none := rfl

@[simp] theorem getKey_cons (k' : String) (v' : Value) (rest : Obj) (k : String) :
    getKey ((k', v') :: rest) k = if k' = k then some v' else getKey rest k := rfl

@[simp] theorem setKey_nil (k : String) (v : Value) : setKey [] k v = [(k, v)] := rfl

@[simp] theorem setKey_cons (k' : String) (v' : Value) (rest : Obj) (k : String) (v : Value) :
    setKey ((k', v') :: rest) k v
      = if k' = k then (k, v) :: rest else (k', v') :: setKey rest k v := rfl

theorem getKey_setKey_self (o : Obj) (k : String) (v : Value) :
    getKey (setKey o k v) k = some v := by
  induction o with
  | nil => simp
  | cons p rest ih =>
      obtain ⟨pk, pv⟩ := p
      by_cases h : pk = k <;> simp [h, ih]

theorem getKey_setKey_ne (o : Obj) (k k' : String) (v : Value) (h : k ≠ k') :
    getKey (setKey o k v) k' = getKey o k' := by
  induction o with
  | nil => simp [h]
  | cons p rest ih =>
      obtain ⟨pk, pv⟩ := p
      by_cases hp : pk = k
      · subst hp; simp [h]
      · simp [hp, ih]

theorem setKey_setKey_self (o : Obj) (k : String) (v v' : Value) :
    setKey (setKey o k v) k v' = setKey o k v' := by
  induction o with
  | nil => simp
  | cons p rest ih =>
      obtain ⟨pk, pv⟩ := p
      by_cases h : pk = k <;> simp [h, ih]

theorem keysOf_setKey (o : Obj) (k : String) (v : Value) :
    keysOf (setKey o k v) = keysOf o ∨ keysOf (setKey o k v) = keysOf o ++ [k] := by
  induction o with
  | nil => right; simp [keysOf]
  | cons p rest ih =>
      obtain ⟨pk, pv⟩ := p
      by_cases h : pk = k
      · left; simp [keysOf, h]
      · rcases ih with ih | ih
        · left; simp only [keysOf] at ih ⊢; simp [h, ih]
        · right; simp only [keysOf] at ih ⊢; simp [h, ih]

theorem mem_keysOf_setKey (o : Obj) (k k' : String) (v : Value)
    (h : k' ∈ keysOf (setKey o k v)) : k' ∈ keysOf o ∨ k' = k := by
  rcases keysOf_setKey o k v with he | he
  · rw [he] at h; exact Or.inl h
  · rw [he] at h
    rcases List.mem_append.1 h with h | h
    · exact Or.inl h
    · simp at h; exact Or.inr h

/-! ### JS string primitives

Character-level models of the JS string operations the code uses
(`split`, `trim`, `includes`, `startsWith`).  All are structural
recursions so concrete instances evaluate by `rfl`/`decide`. -/

/-- The whitespace class of JS `\s` / `String.prototype.trim` (the ASCII
part; the exotic Unicode spaces never occur in the modelled data). -/
def isJsSpaceChar (c : Char) : Bool :=
  c = ' ' || c = '\t' || c = '\n' || c = '\r' || c = '\x0b' || c = '\x0c'

/-- JS `s.trim()`. -/
def jsTrim (s : String) : String :=
  String.mk (((s.data.dropWhile isJsSpaceChar).reverse.dropWhile isJsSpaceChar).reverse)

/-- If `pat` is a literal prefix of `s`, the remainder of `s` after it. -/
def dropLit : List Char → List Char → Option (List Char)
  | [], s => some s
  | _ :: _, [] => none
  | p :: ps, c :: cs => if p = c then dropLit ps cs else none

/-- Worker for `jsSplit`: JS `String.prototype.split` with a non-empty
literal separator — leftmost, non-overlapping.  The fuel is the input
length plus one, enough for every step (each consumes at least one
character), so the fuel-exhausted branch is never taken. -/
def jsSplitAux (sep : List Char) : Nat → List Char → List Char → List (List Char)
  | 0, s, acc => [acc.reverse ++ s]
  | _ + 1, [], acc => [acc.reverse]
  | fuel + 1, c :: rest, acc =>
      match dropLit sep (c :: rest) with
      | some rest' => acc.reverse :: jsSplitAux sep fuel rest' []
      | none => jsSplitAux sep fuel rest (c :: acc)

/-- JS `s.split(sep)` for a non-empty literal separator. -/
def jsSplit (s : String) (sep : String) : List String :=
  (jsSplitAux sep.data (s.data.length + 1) s.data []).map String.mk

/-- JS `s.includes("_")`. -/
def hasUnderscore (s : String) : Bool := s.data.any (fun c => c = '_')

/-- JS `key.split("_", 2)` destructured into `[parentKey, childKey]`:
the first two segments of the full split (the limit argument truncates;
it does not keep the remainder).  `childKey` defaults to the empty
string, which is unreachable when the key contains an underscore. -/
def jsSplitUnderscore2 (k : String) : String × String :=
  let parts := jsSplit k "_"
  (parts.getD 0 "", parts.getD 1 "")

/-- JS `chunk.startsWith("data:")` followed by `chunk.slice(5)`:
the remainder when `"data:"` is a prefix. -/
def dropDataColon (chunk : String) : Option String :=
  (dropLit ("data:".data) chunk.data).map String.mk

example : jsSplit "A|B|C" "|" = ["A", "B", "C"] := by decide
example : jsSplit "" "|" = [""] := by decide
example : jsSplit "a\n\n\nb" "\n\n" = ["a", "\nb"] := by decide
example : jsSplitUnderscore2 "a_b_c" = ("a", "b") := by decide
example : jsSplitUnderscore2 "a_b" = ("a", "b") := by decide
example : jsTrim "  x y\n" = "x y" := by decide
example : hasUnderscore "a_b" = true := by decide
example : dropDataColon "data: hi" = some " hi" := by decide
example : dropDataColon "hi" = none := by decide

/-! ### Request reconstruction (src/src/request-handler.ts) -/

/-- JS truthiness of a possibly-undefined property read
(`undefined` is falsy). -/
def truthyOpt : Option Value → Bool
  | none => false
  | some v => truthy v

/-- A duck-typed OpenAPI schema object as the reconstructor and the
deriver see it: `$ref` marker, `type`, `description`, `properties`,
`required`, `items`.  An absent field is `none`; a present-but-empty
`properties`/`required` is `some []` (still truthy in JS). -/
inductive SchemaNode where
  | mk (ref : Option String) (type : Option String) (description : Option String)
      (properties : Option (List (String × SchemaNode)))
      (required : Option (List String))
      (items : Option SchemaNode) : SchemaNode
deriving Repr

def SchemaNode.ref : SchemaNode → Option String
  | .mk r _ _ _ _ _ => r

def SchemaNode.type : SchemaNode → Option String
  | .mk _ t _ _ _ _ => t

def SchemaNode.description : SchemaNode → Option String
  | .mk _ _ d _ _ _ => d

def SchemaNode.properties : SchemaNode → Option (List (String × SchemaNode))
  | .mk _ _ _ p _ _ => p

def SchemaNode.required : SchemaNode → Option (List String)
  | .mk _ _ _ _ r _ => r

def SchemaNode.items : SchemaNode → Option SchemaNode
  | .mk _ _ _ _ _ i => i

mutual

/-- The body of `applyEnvironmentDefaults`' loop for one defaults entry
`(key, defaultValue)`: a non-object (scalar) default is assigned
unconditionally — the source has no presence check, despite its own
comment; an object (non-array, non-null) default resets a non-object
target to `{}` and recurses; a null or array default does nothing.
Recursing into a null target throws in JS (modelled as `Except.error`
when the nested defaults are non-empty); recursing into an array target
would set named properties on the array, which is left unmodelled. -/
def applyDefaultStep : Obj → String → Value → Except String Obj
  | requestBody, key, defaultValue =>
      match defaultValue with
      | .vBool _ | .vNum _ | .vStr _ =>
          .ok (setKey requestBody key defaultValue)
      | .vNull => .ok requestBody
      | .vArr _ => .ok requestBody
      | .vObj o =>
          match getKey requestBody key with
          | some (.vObj io) =>
              (applyEnvironmentDefaults io o).map
                (fun io' => setKey requestBody key (.vObj io'))
          | some .vNull =>
              if o.isEmpty then .ok requestBody else .error "TypeError"
          | some (.vArr _) =>
              .error "unmodelled: defaults applied onto an array value"
          | _ =>
              (applyEnvironmentDefaults [] o).map
                (fun io' => setKey requestBody key (.vObj io'))
termination_by _rb _key defaultValue => sizeOf defaultValue
decreasing_by all_goals simp

/-- `applyEnvironmentDefaults` from src/src/request-handler.ts, as the
fold of `applyDefaultStep` over the defaults entries. -/
def applyEnvironmentDefaults : Obj → Obj → Except String Obj
  | requestBody, [] => .ok requestBody
  | requestBody, (key, defaultValue) :: restDefaults =>
      match applyDefaultStep requestBody key defaultValue with
      | .ok rb' => applyEnvironmentDefaults rb' restDefaults
      | .error e => .error e
termination_by _rb defaults => sizeOf defaults
decreasing_by all_goals (simp <;> omega)

end

/-- One loop iteration of `processNestedProperties`: initialise
`requestBody[propName]` to `{}` when undefined, then write the nested
value chosen with flattened-key priority (`args[propName_nested]` first,
then `args[propName][nested]`), if one is defined.  Property reads on
non-objects yield undefined (string indices and array elements are not
modelled); property writes on primitives/null throw. -/
def processNestedStep (propName : String) (args : Obj) (requestBody : Obj)
    (nestedPropName : String) : Except String Obj :=
  let paramName := propName ++ "_" ++ nestedPropName
  let rb := match getKey requestBody propName with
            | none => setKey requestBody propName (.vObj [])
            | some _ => requestBody
  let chosen : Option Value :=
    match getKey args paramName with
    | some v => some v
    | none =>
        match getKey args propName with
        | some av =>
            if truthy av then
              match av with
              | .vObj ao => getKey ao nestedPropName
              | _ => none
            else none
        | none => none
  match chosen with
  | none => .ok rb
  | some v =>
      match getKey rb propName with
      | some (.vObj io) => .ok (setKey rb propName (.vObj (setKey io nestedPropName v)))
      | some (.vArr _) => .error "unmodelled: named property write on an array"
      | some _ => .error "TypeError: property write on a primitive"
      | none => .error "unreachable: key was just initialised"

/-- `processNestedProperties` from src/src/request-handler.ts: iterate
over the declared nested properties (nothing happens when the schema's
`properties` is absent). -/
def processNestedProperties (propName : String) (propSchema : SchemaNode)
    (args : Obj) (requestBody : Obj) : Except String Obj :=
  match propSchema.properties with
  | none => .ok requestBody
  | some nestedProps =>
      nestedProps.foldlM (fun rb np => processNestedStep propName args rb np.1) requestBody

/-- One loop iteration of `processWithSchema` for the declared top-level
property `p`: delegate object-typed properties with declared
sub-properties to `processNestedProperties`, otherwise copy
`args[propName]` when defined. -/
def processWithSchemaStep (args : Obj) (rb : Obj) (p : String × SchemaNode) :
    Except String Obj :=
  if p.2.type = some "object" ∧ p.2.properties.isSome = true then
    processNestedProperties p.1 p.2 args rb
  else
    match getKey args p.1 with
    | some v => .ok (setKey rb p.1 v)
    | none => .ok rb

/-- `processWithSchema` from src/src/request-handler.ts: iterate the
declared top-level properties into an initially empty body (an absent
`properties` yields the empty body unchanged). -/
def processWithSchema (args : Obj) (schema : SchemaNode) : Except String Obj :=
  match schema.properties with
  | none => .ok []
  | some props => props.foldlM (processWithSchemaStep args) []

/-- One loop iteration of `processGeneric`: a key containing an
underscore is split by `key.split("_", 2)` and nested under its parent
(a falsy parent slot is first reset to `{}`); other keys are written
top-level.  Nesting under a truthy primitive throws in JS (strict
mode); nesting under an array would set a named property on it, which
is left unmodelled. -/
def processGenericStep (requestBody : Obj) (key : String) (value : Value) :
    Except String Obj :=
  if hasUnderscore key then
    let pc := jsSplitUnderscore2 key
    let rb := if truthyOpt (getKey requestBody pc.1) then requestBody
              else setKey requestBody pc.1 (.vObj [])
    match getKey rb pc.1 with
    | some (.vObj po) => .ok (setKey rb pc.1 (.vObj (setKey po pc.2 value)))
    | some (.vArr _) => .error "unmodelled: named property write on an array"
    | _ => .error "TypeError: property write on a primitive"
  else
    .ok (setKey requestBody key value)

/-- `processGeneric` from src/src/request-handler.ts. -/
def processGeneric (args : Obj) : Except String Obj :=
  args.foldlM (fun rb kv => processGenericStep rb kv.1 kv.2) []

/-- The slice of `ExtendedTool.metadata` (src/src/types.ts) that request
reconstruction reads. -/
structure ExtendedToolMetadata where
  originalPath : String
  method : String
  requestBodySchema : Option SchemaNode

/-- The slice of `ExtendedTool` (src/src/types.ts) that request
reconstruction reads. -/
structure ExtendedTool where
  name : String
  description : String
  metadata : ExtendedToolMetadata

/-- `buildRequestBody` from src/src/request-handler.ts: schema-guided
reconstruction when the tool retains a request-body schema, generic
underscore-splitting otherwise; then the environment-defaults merge. -/
def buildRequestBody (args : Obj) (tool : ExtendedTool) (defaults : Obj) :
    Except String Obj :=
  match tool.metadata.requestBodySchema with
  | some schema =>
      (processWithSchema args schema).bind (fun rb => applyEnvironmentDefaults rb defaults)
  | none =>
      (processGeneric args).bind (fun rb => applyEnvironmentDefaults rb defaults)

/-! ### Tool derivation (src/unnamed/part_000, `parseOpenAPISpec` module) -/

/-- Generic JS object-property assignment for non-`Value` payloads
(update in place or append), used for schema `properties` maps. -/
def setField {α : Type} : List (String × α) → String → α → List (String × α)
  | [], k, v => [(k, v)]
  | (k', v') :: rest, k, v =>
      if k' = k then (k, v) :: rest else (k', v') :: setField rest k v

/-- JS `a || b` where `a` is an optional string (absent and `""` are
falsy). -/
def jsOrStr (a : Option String) (b : String) : String :=
  match a with
  | some s => if s = "" then b else s
  | none => b

/-- JS `a || b` on strings (`""` is falsy). -/
def jsOrStr2 (a b : String) : String := if a = "" then b else a

/-- JS `method.toUpperCase()` (ASCII). -/
def jsToUpper (s : String) : String := String.mk (s.data.map Char.toUpper)

def SchemaNode.withProperties : SchemaNode → Option (List (String × SchemaNode)) → SchemaNode
  | .mk r t d _ req i, p => .mk r t d p req i

def SchemaNode.withRequired : SchemaNode → Option (List String) → SchemaNode
  | .mk r t d p _ i, req => .mk r t d p req i

/-- An entry of `operation.parameters`: a `ParameterObject` or (when
`ref` is set) a `ReferenceObject`, per `isReferenceObject`. -/
structure ParameterObject where
  ref : Option String
  name : String
  description : Option String
  required : Option Bool
  schema : Option SchemaNode
deriving Repr

/-- An `operation.requestBody`: `ref` marks a `ReferenceObject`;
`content` maps content types to media-type objects, of which only the
optional `schema` member is read. -/
structure RequestBodyObject where
  ref : Option String
  content : List (String × Option SchemaNode)
deriving Repr

/-- The slice of an OpenAPI `OperationObject` that `createToolsFromOperation`
reads. -/
structure OperationObject where
  summary : Option String
  description : Option String
  parameters : Option (List ParameterObject)
  requestBody : Option RequestBodyObject
deriving Repr

/-- `Metadata` from src/unnamed/part_000. -/
structure Metadata where
  method : String
  originalPath : String
  parameters : List ParameterObject
  requestBodySchema : Option SchemaNode
deriving Repr

/-- `Tool` from src/unnamed/part_000. -/
structure Tool where
  name : String
  description : String
  inputSchema : SchemaNode
  metadata : Metadata
deriving Repr

/-- `createEmptySchema`: `{type: "object", properties: {}, required: []}`. -/
def createEmptySchema : SchemaNode :=
  .mk none (some "object") none (some []) (some []) none

/-- `addPropertyToSchema`: skip reference schemas; otherwise assign the
property (initialising `properties` when absent) and, when required,
push the name onto `required` (initialising it when absent) unless
already present. -/
def addPropertyToSchema (schema : SchemaNode) (propName : String)
    (propSchema : SchemaNode) (isRequired : Bool) : SchemaNode :=
  if propSchema.ref.isSome then schema
  else
    let schema1 := schema.withProperties
      (some (setField (schema.properties.getD []) propName propSchema))
    if isRequired then
      let req := schema1.required.getD []
      if propName ∈ req then schema1
      else schema1.withRequired (some (req ++ [propName]))
    else schema1

/-- `addRequestBodyToSchema`: copy each top-level property of the
request-body schema into the input schema, propagating its required
marker (`requestBodySchema.required?.includes(propName) || false`). -/
def addRequestBodyToSchema (requestBodySchema inputSchema : SchemaNode) : SchemaNode :=
  match requestBodySchema.properties with
  | none => inputSchema
  | some props =>
      props.foldl (fun s p =>
        addPropertyToSchema s p.1 p.2 ((requestBodySchema.required.getD []).contains p.1))
        inputSchema

/-- `createParameterSchema`: an absent or reference parameter schema
degrades to the empty schema object; otherwise take the declared type
(default `"string"`), drop the `items` constraint of array types, and
default the description to `"<name> parameter"`. -/
def createParameterSchema (param : ParameterObject) : SchemaNode :=
  match param.schema with
  | none => .mk none none none none none none
  | some paramSchema =>
      if paramSchema.ref.isSome then .mk none none none none none none
      else
        let paramType := jsOrStr paramSchema.type "string"
        let desc := some (jsOrStr param.description (param.name ++ " parameter"))
        if paramType = "array" then .mk none (some "array") desc none none none
        else .mk none (some paramType) desc none none none

/-- `addParametersToSchema`: add a property per non-reference parameter,
required iff the parameter declares `required: true`. -/
def addParametersToSchema (parameters : List ParameterObject)
    (schema : SchemaNode) : SchemaNode :=
  parameters.foldl (fun s param =>
    if param.ref.isSome then s
    else addPropertyToSchema s param.name (createParameterSchema param)
      (param.required = some true)) schema

/-- `cleanupSchema`: delete `properties` and/or `required` outright when
empty. -/
def cleanupSchema (schema : SchemaNode) : SchemaNode :=
  let schema1 := match schema.properties with
    | some (_ :: _) => schema
    | _ => schema.withProperties none
  match schema1.required with
  | some (_ :: _) => schema1
  | _ => schema1.withRequired none

/-- The input schema (before cleanup) and metadata that
`createToolsFromOperation` computes: parameters first, then the first
content type's request-body schema (retained on the metadata when not a
reference). -/
def toolPreSchemaAndMetadata (path method : String) (operation : OperationObject) :
    SchemaNode × Metadata :=
  let metadata0 : Metadata :=
    { method := jsToUpper method, originalPath := path,
      parameters := operation.parameters.getD [], requestBodySchema := none }
  let inputSchema1 :=
    match operation.parameters with
    | some params => addParametersToSchema params createEmptySchema
    | none => createEmptySchema
  match operation.requestBody with
  | some rb =>
      if rb.ref.isSome then (inputSchema1, metadata0)
      else
        match rb.content.head? with
        | some (_, some schema) =>
            if schema.ref.isSome then (inputSchema1, metadata0)
            else (addRequestBodyToSchema schema inputSchema1,
                  { metadata0 with requestBodySchema := some schema })
        | _ => (inputSchema1, metadata0)
  | none => (inputSchema1, metadata0)

/-- The final (cleaned) input schema and the metadata every variant of
the operation's tools shares. -/
def toolSchemaAndMetadata (path method : String) (operation : OperationObject) :
    SchemaNode × Metadata :=
  (cleanupSchema (toolPreSchemaAndMetadata path method operation).1,
   (toolPreSchemaAndMetadata path method operation).2)

/-- `createToolsFromOperation` from src/unnamed/part_000: split summary
and description on `|` (trimming each segment), emit
`max(|summaries|, |descriptions|)` tools, selecting segments modulo
their own list's length, with fallbacks `"<method> <path>"` for an
empty name segment and the name for an empty description segment.  All
variants share one input schema and one metadata record. -/
def createToolsFromOperation (path method : String) (operation : OperationObject) :
    List Tool :=
  let sm := toolSchemaAndMetadata path method operation
  let summaries := (jsSplit (operation.summary.getD "") "|").map jsTrim
  let descriptions := (jsSplit (operation.description.getD "") "|").map jsTrim
  let maxLength := max summaries.length descriptions.length
  (List.range maxLength).map (fun index =>
    let name := jsOrStr2 (summaries.getD (index % summaries.length) "")
      (method ++ " " ++ path)
    let description := jsOrStr2 (descriptions.getD (index % descriptions.length) "")
      name
    { name := name, description := description, inputSchema := sm.1, metadata := sm.2 })

/-! ### Spec cache and remote loading (src/unnamed/part_000) -/

/-- `CacheEntry` from src/unnamed/part_000: parsed spec content, fetch
time in milliseconds, optional ETag. -/
structure CacheEntry where
  content : Value
  timestamp : Int
  etag : Option String
deriving Repr

/-- `CACHE_TTL = 3600 * 1000` — one hour in milliseconds. -/
def CACHE_TTL : Int := 3600 * 1000

/-- `getCachedSpec`: a missing or unreadable cache file is a soft miss
(`file = none`); a readable entry is a miss iff
`Date.now() - entry.timestamp > CACHE_TTL`. -/
def getCachedSpec (file : Option CacheEntry) (now : Int) : Option CacheEntry :=
  match file with
  | none => none
  | some entry => if now - entry.timestamp > CACHE_TTL then none else some entry

/-- The observable outcome of one HTTP fetch attempt: a response
(status, body text, optional ETag header) or a transport error. -/
inductive AttemptResult where
  | response (status : Nat) (text : String) (etag : Option String)
  | networkError (msg : String)
deriving Repr

/-- `response.ok`: status in the 2xx range. -/
def responseOk (status : Nat) : Bool := 200 ≤ status && status ≤ 299

/-- The body of one iteration of `fetchWithRetry`'s loop: a 304 with a
cached ETag raises `USE_CACHED_VERSION`; a non-ok status or empty body
raises; otherwise the body is parsed (`parseContent` — JSON first, then
YAML — abstracted as the `parse` argument). -/
def fetchAttempt (parse : String → Except String Value) (url : String)
    (cachedEtag : Option String) (a : AttemptResult) :
    Except String (Value × Option String) :=
  match a with
  | .networkError msg => .error msg
  | .response status text etag =>
      if status = 304 ∧ cachedEtag.isSome then .error "USE_CACHED_VERSION"
      else if ¬ responseOk status = true then
        .error ("HTTP error! status: " ++ toString status)
      else if text = "" then .error ("Empty response from " ++ url)
      else match parse text with
           | .ok content => .ok (content, etag)
           | .error _ => .error "Failed to parse response as either JSON or YAML"

/-- The retry loop of `fetchWithRetry`: up to `remaining` sequential
attempts (backoff delays do not affect the result); the special
`USE_CACHED_VERSION` error aborts immediately, any other error is
retried, and exhaustion reports the last error. -/
def fetchGo (parse : String → Except String Value) (url : String)
    (cachedEtag : Option String) (attempts : Nat → AttemptResult) :
    Nat → Nat → Option String → Except String (Value × Option String)
  | 0, _, lastError =>
      .error ("Failed to fetch OpenAPI spec after 3 retries: " ++ lastError.getD "null")
  | remaining + 1, i, _ =>
      match fetchAttempt parse url cachedEtag (attempts i) with
      | .ok res => .ok res
      | .error msg =>
          if msg = "USE_CACHED_VERSION" then .error msg
          else fetchGo parse url cachedEtag attempts remaining (i + 1) (some msg)

/-- `fetchWithRetry` from src/unnamed/part_000 (`maxRetries = 3`). -/
def fetchWithRetry (parse : String → Except String Value) (url : String)
    (cachedEtag : Option String) (attempts : Nat → AttemptResult) :
    Except String (Value × Option String) :=
  fetchGo parse url cachedEtag attempts 3 0 none

/-- The remote (`http://`/`https://`) branch of `loadOpenAPISpec`:
consult the cache, fetch with the cached ETag, and on the
`USE_CACHED_VERSION` error fall back to the cached content when a cache
entry exists — otherwise the error propagates.  (`setCachedSpec` is
best-effort and does not affect the returned value.) -/
def loadRemoteSpec (parse : String → Except String Value) (url : String)
    (cacheFile : Option CacheEntry) (now : Int)
    (attempts : Nat → AttemptResult) : Except String Value :=
  let cached := getCachedSpec cacheFile now
  match fetchWithRetry parse url (cached.bind (fun c => c.etag)) attempts with
  | .ok (content, _) => .ok content
  | .error msg =>
      if msg = "USE_CACHED_VERSION" then
        match cached with
        | some c => .ok c.content
        | none => .error msg
      else .error msg

/-! ### SSE stream aggregation (src/unnamed/part_002 `handleSSEResponse`,
utils `extractTextFromQuotes`) -/

/-- Try to match the regex `"«field»":\s*"([^"]*)"` at the start of `s`:
on success, the capture and the remainder after the closing quote. -/
def matchFieldAt (field : List Char) (s : List Char) : Option (List Char × List Char) :=
  match dropLit ('"' :: (field ++ ['"', ':'])) s with
  | none => none
  | some rest1 =>
      match rest1.dropWhile isJsSpaceChar with
      | '"' :: rest3 =>
          let cap := rest3.takeWhile (fun c => c ≠ '"')
          match rest3.dropWhile (fun c => c ≠ '"') with
          | '"' :: rest5 => some (cap, rest5)
          | _ => none
      | _ => none

/-- Global regex scan (`regex.exec` loop): all captures of
`"«field»":\s*"([^"]*)"`, leftmost first, non-overlapping, resuming
after each full match.  The fuel (the input length) suffices because
every step consumes at least one character. -/
def scanFieldAux (field : List Char) : Nat → List Char → List (List Char)
  | 0, _ => []
  | _ + 1, [] => []
  | fuel + 1, c :: rest =>
      match matchFieldAt field (c :: rest) with
      | some (cap, after) => cap :: scanFieldAux field fuel after
      | none => scanFieldAux field fuel rest

/-- All captures of `"«field»": "..."` in `input`, in appearance order. -/
def extractFieldFromQuotes (field : String) (input : String) : List String :=
  (scanFieldAux field.data input.data.length input.data).map String.mk

/-- `extractTextFromQuotes` from the utils module: all captures of
`/"text":\s*"([^"]*)"/g` in appearance order. -/
def extractTextFromQuotes (input : String) : List String :=
  extractFieldFromQuotes "text" input

/-- Modelled from the spec: `extractContentFromQuotes`, imported by
`handleSSEResponse` in src/unnamed/part_002 but not present under src/
(the utils module there ends after `extractIteratorFromQuotes`); per the
spec it extracts `"content": "..."`-style fields the same way the text
extractor does. -/
def extractContentFromQuotes (input : String) : List String :=
  extractFieldFromQuotes "content" input

/-- `parseSSEEvent` (src/unnamed/part_002): strip a leading `data:`
prefix and trim; a chunk without the prefix passes through unchanged. -/
def parseSSEEvent (chunk : String) : String :=
  match dropDataColon chunk with
  | some rest => jsTrim rest
  | none => chunk

/-- The chunk-source selection of `handleSSEResponse`: `"text"` captures
if any, else `"content"` captures if any, else the trimmed body split on
blank lines (`\n\n`). -/
def selectChunks (stream : String) : List String :=
  let textChunks := extractTextFromQuotes stream
  let contentChunks := extractContentFromQuotes stream
  let lines := jsSplit (jsTrim stream) "\n\n"
  if textChunks.length > 0 then textChunks
  else if contentChunks.length > 0 then contentChunks
  else lines

/-- The per-chunk processing of `handleSSEResponse`'s loop: skip chunks
that are empty after trimming, otherwise emit `parseSSEEvent chunk`. -/
def processChunk (chunk : String) : Option String :=
  if jsTrim chunk = "" then none else some (parseSSEEvent chunk)

/-- The ordered sequence of content fragments `handleSSEResponse`
accumulates (the entries pushed into the result in loop order; no chunk
can fail in the modelled paths, so the rejection branch is dead). -/
def aggregateSSE (stream : String) : List String :=
  (selectChunks stream).filterMap processChunk

/-- The final concatenation (`allText`) the src/unnamed/part_002 variant
resolves with. -/
def handleSSEAllText (stream : String) : String :=
  String.join (aggregateSSE stream)

/-! ### Shared helper lemmas -/

theorem applyEnvironmentDefaults_nil (rb : Obj) :
    applyEnvironmentDefaults rb [] = .ok rb := by
  simp [applyEnvironmentDefaults]

theorem cleanupSchema_never_empty (s : SchemaNode) :
    (cleanupSchema s).properties ≠ some [] ∧ (cleanupSchema s).required ≠ some [] := by
  obtain ⟨r, t, d, p, req, i⟩ := s
  rcases p with _ | (_ | ⟨ph, pt⟩) <;> rcases req with _ | (_ | ⟨rh, rt⟩) <;>
    simp [cleanupSchema, SchemaNode.withProperties, SchemaNode.withRequired,
      SchemaNode.properties, SchemaNode.required]

/-! ### C1 — default precedence -/

/-- C1: the claim is refuted by the code at its own example input.  The
spec (and the source's own comment, the README's priority list and
tests/test-generic-mapping.js) say an explicit argument beats an
environment default, so `{x: 1}` with default `{x: 2}` must yield
`x = 1`; but `applyEnvironmentDefaults` assigns scalar defaults without
any presence check, so `buildRequestBody` yields `x = 2`. -/
theorem buildRequestBody_scalar_default_overwrites_argument :
    buildRequestBody [("x", .vNum 1)] ⟨"t", "d", ⟨"/p", "POST", none⟩⟩
      [("x", .vNum 2)] = .ok [("x", .vNum 2)] := by
  simp [buildRequestBody, applyEnvironmentDefaults, applyDefaultStep]
  rfl

/-! ### C2 — flatten/reconstruct round trip -/

/-- The retained request-body schema used by the round-trip claim: an
object with one object-typed property `a` declaring one nested property
`b` (of arbitrary schema `tB`). -/
def nestedDemoSchema (tB : SchemaNode) : SchemaNode :=
  .mk none (some "object") none
    (some [("a", .mk none (some "object") none (some [("b", tB)]) none none)]) none none

/-- C2: for every value `v` and empty defaults, passing `{a_b: v}` and
passing `{a: {b: v}}` both reconstruct to `{a: {b: v}}` — in
schema-guided mode (retained schema declaring object property `a` with
nested property `b`) and in generic mode (no retained schema). -/
theorem buildRequestBody_flatten_roundTrip (tB : SchemaNode) (v : Value) :
    buildRequestBody [("a_b", v)] ⟨"t", "d", ⟨"/p", "POST", some (nestedDemoSchema tB)⟩⟩ []
      = .ok [("a", .vObj [("b", v)])] ∧
    buildRequestBody [("a", .vObj [("b", v)])]
        ⟨"t", "d", ⟨"/p", "POST", some (nestedDemoSchema tB)⟩⟩ []
      = .ok [("a", .vObj [("b", v)])] ∧
    buildRequestBody [("a_b", v)] ⟨"t", "d", ⟨"/p", "POST", none⟩⟩ []
      = .ok [("a", .vObj [("b", v)])] ∧
    buildRequestBody [("a", .vObj [("b", v)])] ⟨"t", "d", ⟨"/p", "POST", none⟩⟩ []
      = .ok [("a", .vObj [("b", v)])] := by
  refine ⟨?_, ?_, ?_, ?_⟩ <;> (simp [buildRequestBody, applyEnvironmentDefaults_nil]; rfl)

/-! ### C3 — generic underscore splitting -/

/-- C3 counterexample: for the key `a_b_c` the claim predicts the child
key `b_c` (everything after the first underscore); the code's
`key.split("_", 2)` instead truncates to the segment between the first
and second underscore, producing child `b` and dropping `c`. -/
theorem processGeneric_child_truncation_cex :
    processGeneric [("a_b_c", .vNum 1)] = .ok [("a", .vObj [("b", .vNum 1)])] ∧
    processGeneric [("a_b_c", .vNum 1)] ≠ .ok [("a", .vObj [("b_c", .vNum 1)])] := by
  constructor
  · rfl
  · intro h
    have h2 : Except.ok (ε := String) [("a", Value.vObj [("b", Value.vNum 1)])]
        = Except.ok [("a", Value.vObj [("b_c", Value.vNum 1)])] := by
      rw [← h]; rfl
    simp at h2

/-! ### C6 — cache TTL -/

/-- C6 counterexample: an entry whose age is exactly 3600 seconds
(3600000 ms) is returned by the cache read — the code misses only on
`now - timestamp > CACHE_TTL` — although the claim says an entry aged
3600 seconds or older is treated as absent and every returned entry
satisfies `now - fetchedAt < TTL`. -/
theorem getCachedSpec_ttl_boundary_cex :
    getCachedSpec (some ⟨Value.vNull, 0, none⟩) 3600000
      = some ⟨Value.vNull, 0, none⟩ ∧
    ¬ ((3600000 : Int) - 0 < CACHE_TTL) := by
  constructor
  · norm_num [getCachedSpec, CACHE_TTL]
  · norm_num [CACHE_TTL]

/-- C6 (amended): a cache entry strictly older than the TTL is treated
as a miss even when the file is present, and every returned entry
satisfies `now - fetchedAt ≤ TTL` (the boundary age exactly TTL is still
served). -/
theorem getCachedSpec_ttl_spec (file : Option CacheEntry) (now : Int) :
    (∀ e, file = some e → now - e.timestamp > CACHE_TTL →
      getCachedSpec file now = none) ∧
    (∀ e, getCachedSpec file now = some e →
      file = some e ∧ now - e.timestamp ≤ CACHE_TTL) := by
  constructor
  · rintro e rfl hage
    simp [getCachedSpec, hage]
  · intro e he
    match file with
    | none => simp [getCachedSpec] at he
    | some e' =>
        by_cases hage : now - e'.timestamp > CACHE_TTL
        · simp [getCachedSpec, hage] at he
        · simp [getCachedSpec, hage] at he
          subst he
          exact ⟨rfl, le_of_not_lt hage⟩

/-- C6 witness: concrete instances of both directions of the amended
TTL theorem — an entry one millisecond past the TTL is a miss, and a
younger entry is returned within its TTL bound. -/
theorem getCachedSpec_ttl_spec_witness :
    getCachedSpec (some ⟨Value.vNull, 0, none⟩) 3600001 = none ∧
    (some ⟨Value.vNull, 0, none⟩ = some (⟨Value.vNull, 0, none⟩ : CacheEntry) ∧
      (10 : Int) - (⟨Value.vNull, 0, none⟩ : CacheEntry).timestamp ≤ CACHE_TTL) :=
  ⟨(getCachedSpec_ttl_spec (some ⟨Value.vNull, 0, none⟩) 3600001).1
      ⟨Value.vNull, 0, none⟩ rfl (by norm_num [CACHE_TTL]),
   (getCachedSpec_ttl_spec (some ⟨Value.vNull, 0, none⟩) 10).2
      ⟨Value.vNull, 0, none⟩ (by norm_num [getCachedSpec, CACHE_TTL])⟩

/-! ### C8 — schema cleanliness -/

/-- C8: every derived tool's final input schema never carries a
present-but-empty `properties` or `required` key, and in particular a
tool for an operation with neither parameters nor request body carries
neither key at all. -/
theorem createToolsFromOperation_schema_cleanliness
    (path method : String) (op : OperationObject) (t : Tool)
    (ht : t ∈ createToolsFromOperation path method op) :
    (t.inputSchema.properties ≠ some [] ∧ t.inputSchema.required ≠ some []) ∧
    (op.parameters = none → op.requestBody = none →
      t.inputSchema.properties = none ∧ t.inputSchema.required = none) := by
  have hscheme : t.inputSchema = (toolSchemaAndMetadata path method op).1 := by
    simp only [createToolsFromOperation] at ht
    obtain ⟨i, hi, rfl⟩ := List.mem_map.1 ht
    rfl
  constructor
  · rw [hscheme]
    exact cleanupSchema_never_empty _
  · intro hp hr
    rw [hscheme]
    simp [toolSchemaAndMetadata, toolPreSchemaAndMetadata, hp, hr, cleanupSchema,
      createEmptySchema, SchemaNode.withProperties, SchemaNode.withRequired,
      SchemaNode.properties, SchemaNode.required]

/-- The single tool derived from a parameterless, bodyless demo
operation, used to witness the cleanliness theorem. -/
def bareOperation : OperationObject := ⟨some "A", some "d", none, none⟩

/-- The tool `createToolsFromOperation "/p" "get" bareOperation`
produces. -/
def bareTool : Tool :=
  ⟨"A", "d", .mk none (some "object") none none none none, ⟨"GET", "/p", [], none⟩⟩

/-- C8 witness: the cleanliness theorem applied to the concrete bare
operation — its tool's input schema carries neither `properties` nor
`required`. -/
theorem createToolsFromOperation_schema_cleanliness_witness :
    bareTool.inputSchema.properties = none ∧ bareTool.inputSchema.required = none :=
  (createToolsFromOperation_schema_cleanliness "/p" "get" bareOperation bareTool
    (by rw [show createToolsFromOperation "/p" "get" bareOperation = [bareTool] from rfl]
        exact List.mem_singleton.mpr rfl)).2 rfl rfl

/-! ### C5 — ETag revalidation -/

/-- C5: when the first fetch attempt answers `304 Not Modified` and a
valid cache entry (with the ETag that was sent) exists, the load returns
that entry's content unchanged; when no usable cache entry exists and
the attempts all answer 304, the load fails with an error instead of
returning anything. -/
theorem loadRemoteSpec_304_revalidation
    (parse : String → Except String Value) (url : String)
    (cacheFile : Option CacheEntry) (now : Int) (attempts : Nat → AttemptResult) :
    (∀ entry e t tg, getCachedSpec cacheFile now = some entry → entry.etag = some e →
      attempts 0 = .response 304 t tg →
      loadRemoteSpec parse url cacheFile now attempts = .ok entry.content) ∧
    (getCachedSpec cacheFile now = none →
      (∀ i, i < 3 → ∃ t tg, attempts i = .response 304 t tg) →
      ∃ msg, loadRemoteSpec parse url cacheFile now attempts = .error msg) := by
  constructor
  · intro entry e t tg hc he h0
    simp only [loadRemoteSpec, fetchWithRetry, fetchGo, fetchAttempt, hc, h0,
      Option.bind_some, he]
    simp [he]
  · intro hc hall
    obtain ⟨t0, g0, h0⟩ := hall 0 (by omega)
    obtain ⟨t1, g1, h1⟩ := hall 1 (by omega)
    obtain ⟨t2, g2, h2⟩ := hall 2 (by omega)
    have hne1 : ("HTTP error! status: " ++ toString (304 : Nat)) ≠ "USE_CACHED_VERSION" := by
      decide
    have hne2 : ("Failed to fetch OpenAPI spec after 3 retries: "
        ++ ("HTTP error! status: " ++ toString (304 : Nat))) ≠ "USE_CACHED_VERSION" := by
      decide
    refine ⟨"Failed to fetch OpenAPI spec after 3 retries: "
      ++ ("HTTP error! status: " ++ toString (304 : Nat)), ?_⟩
    simp only [loadRemoteSpec, fetchWithRetry, fetchGo, fetchAttempt, hc, h0, h1, h2,
      Option.bind_none]
    simp [responseOk, hne1, hne2]

/-- A trivially succeeding body parser, for witnessing the loader
theorems (the 304 paths never reach it). -/
def constParse : String → Except String Value := fun _ => .ok Value.vNull

/-- A fetch environment whose every attempt answers `304 Not Modified`
with an empty body and no ETag header. -/
def always304 : Nat → AttemptResult := fun _ => .response 304 "" none

/-- A fresh cache entry carrying an ETag, for witnessing the
revalidation theorem. -/
def etagEntry : CacheEntry := ⟨Value.vStr "spec", 0, some "W-abc"⟩

/-- C5 witness: the revalidation theorem applied concretely — with a
valid ETag-carrying entry a 304 serves the cached content, and with an
empty cache a 304 storm ends in an error. -/
theorem loadRemoteSpec_304_revalidation_witness :
    loadRemoteSpec constParse "u" (some etagEntry) 10 always304 = .ok etagEntry.content ∧
    (∃ msg, loadRemoteSpec constParse "u" none 10 always304 = .error msg) :=
  ⟨(loadRemoteSpec_304_revalidation constParse "u" (some etagEntry) 10 always304).1
      etagEntry "W-abc" "" none (by norm_num [getCachedSpec, CACHE_TTL, etagEntry]) rfl rfl,
   (loadRemoteSpec_304_revalidation constParse "u" none 10 always304).2
      rfl (fun i _ => ⟨"", none, rfl⟩)⟩

/-! ### C7 — stream aggregation heuristic -/

/-- C7: the chunk-source heuristic in priority order — `"text"` captures
when any exist, else `"content"` captures when any exist, else the
blank-line split of the trimmed body (non-empty segments after
processing) — and the concrete example: two `"text"` fields aggregate
to the block sequence `["Hello", " World"]`. -/
theorem handleSSEResponse_heuristic :
    (∀ stream, extractTextFromQuotes stream ≠ [] →
      selectChunks stream = extractTextFromQuotes stream) ∧
    (∀ stream, extractTextFromQuotes stream = [] → extractContentFromQuotes stream ≠ [] →
      selectChunks stream = extractContentFromQuotes stream) ∧
    (∀ stream, extractTextFromQuotes stream = [] → extractContentFromQuotes stream = [] →
      aggregateSSE stream = (jsSplit (jsTrim stream) "\n\n").filterMap processChunk) ∧
    aggregateSSE "\x7b\"text\": \"Hello\"\x7d, \x7b\"text\": \" World\"\x7d"
      = ["Hello", " World"] := by
  refine ⟨?_, ?_, ?_, by decide⟩
  · intro stream h
    have hl : 0 < (extractTextFromQuotes stream).length := List.length_pos.mpr h
    simp [selectChunks, hl]
  · intro stream h1 h2
    have hl : 0 < (extractContentFromQuotes stream).length := List.length_pos.mpr h2
    simp [selectChunks, h1, hl]
  · intro stream h1 h2
    simp [aggregateSSE, selectChunks, h1, h2]

/-- C7 witness: the heuristic theorem applied concretely — the text
branch on the example body, and the blank-line fallback on a body with
no quoted fields. -/
theorem handleSSEResponse_heuristic_witness :
    selectChunks "\x7b\"text\": \"Hello\"\x7d, \x7b\"text\": \" World\"\x7d"
      = extractTextFromQuotes "\x7b\"text\": \"Hello\"\x7d, \x7b\"text\": \" World\"\x7d" ∧
    aggregateSSE "one\n\ntwo"
      = (jsSplit (jsTrim "one\n\ntwo") "\n\n").filterMap processChunk :=
  ⟨handleSSEResponse_heuristic.1
      "\x7b\"text\": \"Hello\"\x7d, \x7b\"text\": \" World\"\x7d" (by decide),
   handleSSEResponse_heuristic.2.2.1 "one\n\ntwo" (by decide) (by decide)⟩

/-! ### C4 — summary/description multiplexing -/

theorem jsSplitAux_ne_nil (sep : List Char) (fuel : Nat) (s acc : List Char) :
    jsSplitAux sep fuel s acc ≠ [] := by
  induction fuel generalizing s acc with
  | zero => simp [jsSplitAux]
  | succ n ih =>
      match s with
      | [] => simp [jsSplitAux]
      | c :: rest =>
          rw [jsSplitAux]
          match dropLit sep (c :: rest) with
          | some rest' => simp
          | none => exact ih rest (c :: acc)

theorem jsSplit_ne_nil (s sep : String) : jsSplit s sep ≠ [] := by
  unfold jsSplit
  intro h
  exact jsSplitAux_ne_nil sep.data (s.data.length + 1) s.data [] (List.map_eq_nil_iff.mp h)

/-- C4: an operation with pipe-delimited summary and description (all
trimmed segments non-empty) yields exactly
`max(|summary segments|, |description segments|)` tools; tool `i` takes
summary segment `i mod |summaries|` as its name and description segment
`i mod |descriptions|` as its description, and every variant carries the
one shared input schema and metadata record. -/
theorem createToolsFromOperation_multiplex
    (path method : String) (op : OperationObject) (s d : String)
    (hs : op.summary = some s) (hd : op.description = some d)
    (hsn : ∀ x ∈ (jsSplit s "|").map jsTrim, x ≠ "")
    (hdn : ∀ x ∈ (jsSplit d "|").map jsTrim, x ≠ "") :
    (createToolsFromOperation path method op).length
      = max ((jsSplit s "|").map jsTrim).length ((jsSplit d "|").map jsTrim).length ∧
    ∀ i, i < max ((jsSplit s "|").map jsTrim).length ((jsSplit d "|").map jsTrim).length →
      (createToolsFromOperation path method op)[i]?
        = some { name := ((jsSplit s "|").map jsTrim).getD
                    (i % ((jsSplit s "|").map jsTrim).length) "",
                 description := ((jsSplit d "|").map jsTrim).getD
                    (i % ((jsSplit d "|").map jsTrim).length) "",
                 inputSchema := (toolSchemaAndMetadata path method op).1,
                 metadata := (toolSchemaAndMetadata path method op).2 } := by
  have hslen : 0 < ((jsSplit s "|").map jsTrim).length := by
    rw [List.length_pos, ne_eq, List.map_eq_nil_iff]
    exact jsSplit_ne_nil s "|"
  have hdlen : 0 < ((jsSplit d "|").map jsTrim).length := by
    rw [List.length_pos, ne_eq, List.map_eq_nil_iff]
    exact jsSplit_ne_nil d "|"
  constructor
  · simp [createToolsFromOperation, hs, hd]
  · intro i hi
    have hsm : ((jsSplit s "|").map jsTrim).getD (i % ((jsSplit s "|").map jsTrim).length) ""
        ∈ (jsSplit s "|").map jsTrim := by
      rw [List.getD_eq_getElem _ _ (Nat.mod_lt _ hslen)]
      exact List.getElem_mem _
    have hdm : ((jsSplit d "|").map jsTrim).getD (i % ((jsSplit d "|").map jsTrim).length) ""
        ∈ (jsSplit d "|").map jsTrim := by
      rw [List.getD_eq_getElem _ _ (Nat.mod_lt _ hdlen)]
      exact List.getElem_mem _
    simp only [createToolsFromOperation, hs, hd, Option.getD_some]
    have hx := hsn _ hsm
    have hy := hdn _ hdm
    rw [List.getElem?_map, List.getElem?_range hi, Option.map_some']
    simp only [jsOrStr2]
    rw [if_neg hy, if_neg hx]

/-- C4 witness: the multiplexing theorem applied to
`summary = "A|B|C"`, `description = "dA|dB"` — exactly 3 tools, and the
third tool's description wraps modulo 2 to `dA`. -/
theorem createToolsFromOperation_multiplex_witness :
    (createToolsFromOperation "/p" "post" ⟨some "A|B|C", some "dA|dB", none, none⟩).length
      = 3 ∧
    ((createToolsFromOperation "/p" "post"
        ⟨some "A|B|C", some "dA|dB", none, none⟩)[2]?).map Tool.description
      = some "dA" := by
  have h := createToolsFromOperation_multiplex "/p" "post"
    ⟨some "A|B|C", some "dA|dB", none, none⟩ "A|B|C" "dA|dB" rfl rfl
    (by decide) (by decide)
  constructor
  · rw [h.1]; decide
  · rw [h.2 2 (by decide)]; decide

/-! ### C10 — null and array defaults are inert -/

theorem applyDefaultStep_null (rb : Obj) (key : String) :
    applyDefaultStep rb key .vNull = .ok rb := by
  simp [applyDefaultStep]

theorem applyDefaultStep_arr (rb : Obj) (key : String) (xs : List Value) :
    applyDefaultStep rb key (.vArr xs) = .ok rb := by
  simp [applyDefaultStep]

theorem applyDefaultStep_frame (rb : Obj) (key : String) (dv : Value) (rb1 : Obj)
    (h : applyDefaultStep rb key dv = .ok rb1) (k : String) (hk : k ≠ key) :
    getKey rb1 k = getKey rb k := by
  cases dv with
  | vBool b =>
      simp only [applyDefaultStep] at h
      cases h
      exact getKey_setKey_ne _ _ _ _ (Ne.symm hk)
  | vNum n =>
      simp only [applyDefaultStep] at h
      cases h
      exact getKey_setKey_ne _ _ _ _ (Ne.symm hk)
  | vStr s =>
      simp only [applyDefaultStep] at h
      cases h
      exact getKey_setKey_ne _ _ _ _ (Ne.symm hk)
  | vNull =>
      simp only [applyDefaultStep] at h
      cases h
      rfl
  | vArr xs =>
      simp only [applyDefaultStep] at h
      cases h
      rfl
  | vObj o =>
      simp only [applyDefaultStep] at h
      rcases hrb : getKey rb key with _ | v
      · rw [hrb] at h
        rcases hio : applyEnvironmentDefaults [] o with e | io' <;> rw [hio] at h
        · simp [Except.map] at h
        · simp only [Except.map] at h
          cases h
          exact getKey_setKey_ne _ _ _ _ (Ne.symm hk)
      · rw [hrb] at h
        cases v with
        | vObj io =>
            simp only [] at h
            rcases hio : applyEnvironmentDefaults io o with e | io' <;> rw [hio] at h
            · simp [Except.map] at h
            · simp only [Except.map] at h
              cases h
              exact getKey_setKey_ne _ _ _ _ (Ne.symm hk)
        | vNull =>
            by_cases ho : o.isEmpty
            · simp only [ho, if_true] at h
              cases h; rfl
            · simp [ho] at h
        | vArr xs => cases h
        | vBool b =>
            rcases hio : applyEnvironmentDefaults [] o with e | io' <;> rw [hio] at h
            · simp [Except.map] at h
            · simp only [Except.map] at h
              cases h
              exact getKey_setKey_ne _ _ _ _ (Ne.symm hk)
        | vNum n =>
            rcases hio : applyEnvironmentDefaults [] o with e | io' <;> rw [hio] at h
            · simp [Except.map] at h
            · simp only [Except.map] at h
              cases h
              exact getKey_setKey_ne _ _ _ _ (Ne.symm hk)
        | vStr s =>
            rcases hio : applyEnvironmentDefaults [] o with e | io' <;> rw [hio] at h
            · simp [Except.map] at h
            · simp only [Except.map] at h
              cases h
              exact getKey_setKey_ne _ _ _ _ (Ne.symm hk)

theorem applyEnvironmentDefaults_frame : ∀ (defaults rb rb' : Obj),
    applyEnvironmentDefaults rb defaults = .ok rb' → ∀ k, k ∉ keysOf defaults →
    getKey rb' k = getKey rb k := by
  intro defaults
  induction defaults with
  | nil =>
      intro rb rb' h k _
      simp only [applyEnvironmentDefaults] at h
      cases h; rfl
  | cons hd tl ih =>
      obtain ⟨key, dv⟩ := hd
      intro rb rb' h k hk
      have hk1 : k ≠ key ∧ k ∉ keysOf tl := by simpa [keysOf] using hk
      simp only [applyEnvironmentDefaults] at h
      rcases hstep : applyDefaultStep rb key dv with e | rb1 <;> rw [hstep] at h
      · cases h
      · rw [ih _ _ h k hk1.2, applyDefaultStep_frame rb key dv rb1 hstep k hk1.1]

/-- C10: the defaults merge never applies a null- or array-valued
default — when the merge completes, every key whose default is null or
an array holds exactly the value (or absence) it had before the merge;
only scalar and plain-object defaults can change the body. -/
theorem applyEnvironmentDefaults_null_array_frame
    (defaults rb rb' : Obj) (hnd : (keysOf defaults).Nodup)
    (h : applyEnvironmentDefaults rb defaults = .ok rb') (k : String)
    (hk : getKey defaults k = some .vNull ∨ ∃ xs, getKey defaults k = some (.vArr xs)) :
    getKey rb' k = getKey rb k := by
  induction defaults generalizing rb with
  | nil => rcases hk with hk | ⟨xs, hk⟩ <;> simp at hk
  | cons hd tl ih =>
      obtain ⟨key, dv⟩ := hd
      have hnd1 : key ∉ keysOf tl ∧ (keysOf tl).Nodup := by simpa [keysOf] using hnd
      simp only [applyEnvironmentDefaults] at h
      by_cases hkey : key = k
      · subst hkey
        have hdv : dv = .vNull ∨ ∃ xs, dv = .vArr xs := by
          rcases hk with hk | ⟨xs, hk⟩ <;> simp at hk
          · exact Or.inl hk
          · exact Or.inr ⟨xs, hk⟩
        have hstep : applyDefaultStep rb key dv = .ok rb := by
          rcases hdv with rfl | ⟨xs, rfl⟩
          · exact applyDefaultStep_null rb key
          · exact applyDefaultStep_arr rb key xs
        rw [hstep] at h
        exact applyEnvironmentDefaults_frame tl rb rb' h key hnd1.1
      · have hk2 : getKey tl k = some .vNull ∨ ∃ xs, getKey tl k = some (.vArr xs) := by
          rcases hk with hk | ⟨xs, hk⟩
          · left; simpa [hkey] using hk
          · right; exact ⟨xs, by simpa [hkey] using hk⟩
        rcases hstep : applyDefaultStep rb key dv with e | rb1 <;> rw [hstep] at h
        · cases h
        · rw [ih rb1 hnd1.2 h hk2,
            applyDefaultStep_frame rb key dv rb1 hstep k (fun hc => hkey hc.symm)]

/-- C10 witness: the frame theorem applied concretely — a null default
for an absent key and an array default for a present key leave both
entries untouched while a scalar default still lands. -/
theorem applyEnvironmentDefaults_null_array_frame_witness :
    getKey [("a", Value.vStr "keep"), ("y", Value.vNum 7)] "a"
      = getKey [("a", Value.vStr "keep")] "a" ∧
    getKey [("a", Value.vStr "keep"), ("y", Value.vNum 7)] "n"
      = getKey [("a", Value.vStr "keep")] "n" :=
  ⟨applyEnvironmentDefaults_null_array_frame
      [("n", .vNull), ("a", .vArr [.vNum 1]), ("y", .vNum 7)]
      [("a", Value.vStr "keep")] [("a", Value.vStr "keep"), ("y", Value.vNum 7)]
      (by decide)
      (by simp [applyEnvironmentDefaults, applyDefaultStep])
      "a" (Or.inr ⟨[.vNum 1], rfl⟩),
   applyEnvironmentDefaults_null_array_frame
      [("n", .vNull), ("a", .vArr [.vNum 1]), ("y", .vNum 7)]
      [("a", Value.vStr "keep")] [("a", Value.vStr "keep"), ("y", Value.vNum 7)]
      (by decide)
      (by simp [applyEnvironmentDefaults, applyDefaultStep])
      "n" (Or.inl rfl)⟩

/-! ### C9 — schema-guided reconstruction writes only declared keys -/

theorem processNestedStep_shape (propName : String) (args rb : Obj) (n : String)
    (rb1 : Obj) (h : processNestedStep propName args rb n = .ok rb1) :
    rb1 = rb ∨ ∃ w, rb1 = setKey rb propName w := by
  simp only [processNestedStep] at h
  rcases hrb : getKey rb propName with _ | v0 <;> rw [hrb] at h <;> simp only [] at h
  · rcases hch : (match getKey args (propName ++ "_" ++ n) with
      | some v => some v
      | none =>
          match getKey args propName with
          | some av =>
              if truthy av = true then
                match av with
                | .vObj ao => getKey ao n
                | _ => none
              else none
          | none => none : Option Value) with _ | v <;> rw [hch] at h
    · cases h
      exact Or.inr ⟨.vObj [], rfl⟩
    · rw [getKey_setKey_self] at h
      simp only [] at h
      cases h
      exact Or.inr ⟨_, setKey_setKey_self rb propName _ _⟩
  · rcases hch : (match getKey args (propName ++ "_" ++ n) with
      | some v => some v
      | none =>
          match getKey args propName with
          | some av =>
              if truthy av = true then
                match av with
                | .vObj ao => getKey ao n
                | _ => none
              else none
          | none => none : Option Value) with _ | v <;> rw [hch] at h
    · cases h
      exact Or.inl rfl
    · rw [hrb] at h
      cases v0 with
      | vObj io =>
          simp only [] at h
          cases h
          exact Or.inr ⟨_, rfl⟩
      | vNull => cases h
      | vArr xs => cases h
      | vBool b => cases h
      | vNum nn => cases h
      | vStr ss => cases h

theorem processNestedProperties_keys (propName : String)
    (args : Obj) : ∀ (nestedProps : List (String × SchemaNode)) (rb rb1 : Obj),
    nestedProps.foldlM (fun rb np => processNestedStep propName args rb np.1) rb = .ok rb1 →
    ∀ k ∈ keysOf rb1, k ∈ keysOf rb ∨ k = propName := by
  intro nestedProps
  induction nestedProps with
  | nil =>
      intro rb rb1 h k hk
      simp only [List.foldlM_nil] at h
      cases h
      exact Or.inl hk
  | cons np tl ih =>
      intro rb rb1 h k hk
      rw [List.foldlM_cons] at h
      rcases hstep : processNestedStep propName args rb np.1 with e | rbMid <;>
        rw [hstep] at h <;> (try simp only [bind, Except.bind] at h)
      · cases h
      · rcases ih rbMid rb1 h k hk with hmem | heq
        · rcases processNestedStep_shape propName args rb np.1 rbMid hstep with rfl | ⟨w, rfl⟩
          · exact Or.inl hmem
          · rcases mem_keysOf_setKey rb propName k w hmem with hmem2 | rfl
            · exact Or.inl hmem2
            · exact Or.inr rfl
        · exact Or.inr heq

theorem processWithSchemaStep_keys (args rb : Obj) (p : String × SchemaNode)
    (rb1 : Obj) (h : processWithSchemaStep args rb p = .ok rb1) :
    ∀ k ∈ keysOf rb1, k ∈ keysOf rb ∨ k = p.1 := by
  intro k hk
  simp only [processWithSchemaStep] at h
  by_cases hc : p.2.type = some "object" ∧ p.2.properties.isSome = true
  · rw [if_pos hc] at h
    simp only [processNestedProperties] at h
    rcases hprops : p.2.properties with _ | nestedProps <;> rw [hprops] at h
    · cases h
      exact Or.inl hk
    · exact processNestedProperties_keys p.1 args nestedProps rb rb1 h k hk
  · rw [if_neg hc] at h
    rcases hg : getKey args p.1 with _ | v <;> rw [hg] at h <;> cases h
    · exact Or.inl hk
    · rcases mem_keysOf_setKey rb p.1 k v hk with hmem | rfl
      · exact Or.inl hmem
      · exact Or.inr rfl

theorem processWithSchema_fold_keys (args : Obj) :
    ∀ (props : List (String × SchemaNode)) (rb rb1 : Obj),
    props.foldlM (processWithSchemaStep args) rb = .ok rb1 →
    ∀ k ∈ keysOf rb1, k ∈ keysOf rb ∨ k ∈ props.map Prod.fst := by
  intro props
  induction props with
  | nil =>
      intro rb rb1 h k hk
      simp only [List.foldlM_nil] at h
      cases h
      exact Or.inl hk
  | cons p tl ih =>
      intro rb rb1 h k hk
      rw [List.foldlM_cons] at h
      rcases hstep : processWithSchemaStep args rb p with e | rbMid <;>
        rw [hstep] at h <;> (try simp only [bind, Except.bind] at h)
      · cases h
      · rcases ih rbMid rb1 h k hk with hmem | hmem
        · rcases processWithSchemaStep_keys args rb p rbMid hstep k hmem with hmem2 | rfl
          · exact Or.inl hmem2
          · exact Or.inr (by simp)
        · exact Or.inr (by simp [hmem])

/-- C9: in schema-guided reconstruction, every top-level key of the
reconstructed body (before the defaults merge) is the name of a property
declared in the retained schema — argument keys that are neither a
declared property name nor a flattened `parent_child` for a declared
object property never surface in the result. -/
theorem processWithSchema_keys_declared (args : Obj) (schema : SchemaNode)
    (rb' : Obj) (h : processWithSchema args schema = .ok rb') :
    ∀ k ∈ keysOf rb', k ∈ (schema.properties.getD []).map Prod.fst := by
  intro k hk
  simp only [processWithSchema] at h
  rcases hp : schema.properties with _ | props <;> rw [hp] at h
  · cases h
    simp [keysOf] at hk
  · rcases processWithSchema_fold_keys args props [] rb' h k hk with hmem | hmem
    · simp [keysOf] at hmem
    · simpa using hmem

/-- C9 witness: the declared-keys theorem applied concretely — with a
junk argument key alongside declared ones, the result's keys are only
the declared property names. -/
theorem processWithSchema_keys_declared_witness :
    "a" ∈ ((SchemaNode.mk none (some "object") none
        (some [("a", .mk none (some "object") none
                  (some [("b", .mk none (some "string") none none none none)]) none none),
               ("y", .mk none (some "string") none none none none)])
        none none).properties.getD []).map Prod.fst :=
  processWithSchema_keys_declared
    [("junk", .vNum 9), ("y", .vNum 5), ("a_b", .vNum 1)]
    (SchemaNode.mk none (some "object") none
        (some [("a", .mk none (some "object") none
                  (some [("b", .mk none (some "string") none none none none)]) none none),
               ("y", .mk none (some "string") none none none none)])
        none none)
    [("a", .vObj [("b", .vNum 1)]), ("y", .vNum 5)] rfl "a" (by decide)

/-! ### C3 (continued) — the amended generic-splitting statement

A write location is a top-level key (`(k, none)`) or a parent/child pair
(`(p, some c)`).  `locCompatible l k` says that processing argument key
`k` cannot disturb location `l`: either `k` targets a different
top-level slot, or both are nested writes under the same parent with
different children. -/

/-- The location argument key `k` writes to. -/
def locOf (k : String) : String × Option String :=
  if hasUnderscore k then ((jsSplitUnderscore2 k).1, some (jsSplitUnderscore2 k).2)
  else (k, none)

/-- The value stored at a write location (nested locations read through
the parent object; a missing or non-object parent holds nothing). -/
def contentAt (rb : Obj) : String × Option String → Option Value
  | (t, none) => getKey rb t
  | (p, some c) =>
      match getKey rb p with
      | some (.vObj o) => getKey o c
      | _ => none

/-- Processing key `k` leaves location `l` untouched. -/
def locCompatible (l : String × Option String) (k : String) : Prop :=
  l.1 ≠ (locOf k).1 ∨ ((locOf k).2.isSome = true ∧ l.2.isSome = true ∧ locOf k ≠ l)

instance (l : String × Option String) (k : String) : Decidable (locCompatible l k) := by
  unfold locCompatible; infer_instance

/-- The parent slot is absent or already an object (the states the
generic step can nest into without a `TypeError`). -/
def goodParent (rb : Obj) (p : String) : Prop :=
  getKey rb p = none ∨ ∃ o, getKey rb p = some (.vObj o)

/-- The nested object at `p`, or `[]` when the slot holds no object. -/
def innerAt (rb : Obj) (p : String) : Obj :=
  match getKey rb p with
  | some (.vObj o) => o
  | _ => []

theorem contentAt_innerAt (rb : Obj) (p c : String) :
    contentAt rb (p, some c) = getKey (innerAt rb p) c := by
  rcases hg : getKey rb p with _ | v
  · simp [contentAt, innerAt, hg]
  · cases v <;> simp [contentAt, innerAt, hg]

theorem contentAt_setKey_ne (rb : Obj) (k : String) (v : Value)
    (l : String × Option String) (hne : l.1 ≠ k) :
    contentAt (setKey rb k v) l = contentAt rb l := by
  obtain ⟨t, c?⟩ := l
  cases c? <;> simp only [contentAt] <;>
    rw [getKey_setKey_ne _ _ _ _ (fun hc => hne (by simpa using hc.symm))]

theorem innerAt_not_truthy (rb : Obj) (p : String)
    (ht : truthyOpt (getKey rb p) = false) : innerAt rb p = [] := by
  rcases hg : getKey rb p with _ | v
  · simp [innerAt, hg]
  · rw [hg] at ht
    cases v <;> simp_all [innerAt, truthyOpt, truthy]

theorem processGenericStep_plain (rb : Obj) (k : String) (v : Value)
    (hu : hasUnderscore k = false) :
    processGenericStep rb k v = .ok (setKey rb k v) := by
  simp [processGenericStep, hu]

theorem processGenericStep_nested (rb : Obj) (k : String) (v : Value)
    (hu : hasUnderscore k = true) (hg : goodParent rb (jsSplitUnderscore2 k).1) :
    processGenericStep rb k v
      = .ok (setKey rb (jsSplitUnderscore2 k).1
          (.vObj (setKey (innerAt rb (jsSplitUnderscore2 k).1)
            (jsSplitUnderscore2 k).2 v))) := by
  rcases hg with hg | ⟨o, hg⟩
  · simp [processGenericStep, hu, innerAt, hg, truthyOpt, getKey_setKey_self,
      setKey_setKey_self]
  · simp [processGenericStep, hu, innerAt, hg, truthyOpt, truthy]

theorem processGenericStep_ok_shape (rb : Obj) (k : String) (v : Value) (rb1 : Obj)
    (h : processGenericStep rb k v = .ok rb1) (hu : hasUnderscore k = true) :
    rb1 = setKey rb (jsSplitUnderscore2 k).1
      (.vObj (setKey (innerAt rb (jsSplitUnderscore2 k).1) (jsSplitUnderscore2 k).2 v)) := by
  simp only [processGenericStep, hu, if_true] at h
  by_cases ht : truthyOpt (getKey rb (jsSplitUnderscore2 k).1)
  · rw [if_pos ht] at h
    rcases hg : getKey rb (jsSplitUnderscore2 k).1 with _ | v0
    · rw [hg] at ht; simp [truthyOpt] at ht
    · rw [hg] at h
      cases v0 with
      | vObj po =>
          simp only [] at h
          cases h
          simp [innerAt, hg]
      | vNull => cases h
      | vArr xs => cases h
      | vBool b => cases h
      | vNum n => cases h
      | vStr s => cases h
  · rw [if_neg ht, getKey_setKey_self] at h
    simp only [] at h
    cases h
    rw [setKey_setKey_self, innerAt_not_truthy rb _ (by simpa using ht)]

theorem processGenericStep_frame (rb : Obj) (k : String) (v : Value) (rb1 : Obj)
    (h : processGenericStep rb k v = .ok rb1) (l : String × Option String)
    (hc : locCompatible l k) : contentAt rb1 l = contentAt rb l := by
  by_cases hu : hasUnderscore k
  · have hloc : locOf k = ((jsSplitUnderscore2 k).1, some (jsSplitUnderscore2 k).2) := by
      simp [locOf, hu]
    obtain rfl := processGenericStep_ok_shape rb k v rb1 h hu
    rcases hc with hc | ⟨_, hs2, hne⟩
    · exact contentAt_setKey_ne _ _ _ _ (by rw [hloc] at hc; exact hc)
    · obtain ⟨t, c?⟩ := l
      rcases c? with _ | c0
      · simp [Option.isSome] at hs2
      · by_cases hq : t = (jsSplitUnderscore2 k).1
        · subst hq
          have hcne : (jsSplitUnderscore2 k).2 ≠ c0 := by
            intro hce
            exact hne (by rw [hloc, hce])
          rw [contentAt_innerAt, contentAt_innerAt]
          have hinner : innerAt (setKey rb (jsSplitUnderscore2 k).1
              (.vObj (setKey (innerAt rb (jsSplitUnderscore2 k).1)
                (jsSplitUnderscore2 k).2 v))) (jsSplitUnderscore2 k).1
              = setKey (innerAt rb (jsSplitUnderscore2 k).1) (jsSplitUnderscore2 k).2 v := by
            simp [innerAt, getKey_setKey_self]
          rw [hinner, getKey_setKey_ne _ _ _ _ hcne]
        · exact contentAt_setKey_ne _ _ _ _ hq
  · have hu' : hasUnderscore k = false := by simpa using hu
    rw [processGenericStep_plain rb k v hu'] at h
    cases h
    rcases hc with hc | ⟨hs1, _, _⟩
    · exact contentAt_setKey_ne _ _ _ _ (by simpa [locOf, hu'] using hc)
    · simp [locOf, hu', Option.isSome] at hs1

theorem processGenericFold_frame :
    ∀ (args : List (String × Value)) (rb rb' : Obj),
    args.foldlM (fun rb kv => processGenericStep rb kv.1 kv.2) rb = .ok rb' →
    ∀ l, (∀ kv ∈ args, locCompatible l kv.1) →
    contentAt rb' l = contentAt rb l := by
  intro args
  induction args with
  | nil =>
      intro rb rb' h l _
      simp only [List.foldlM_nil] at h
      cases h; rfl
  | cons kv tl ih =>
      intro rb rb' h l hcs
      rw [List.foldlM_cons] at h
      rcases hstep : processGenericStep rb kv.1 kv.2 with e | rb1 <;>
        rw [hstep] at h <;> (try simp only [bind, Except.bind] at h)
      · cases h
      · rw [ih rb1 rb' h l (fun b hb => hcs b (List.mem_cons_of_mem kv hb)),
          processGenericStep_frame rb kv.1 kv.2 rb1 hstep l (hcs kv (List.mem_cons_self kv tl))]

theorem processGenericFold_spec :
    ∀ (args : List (String × Value)) (rb : Obj),
    args.Pairwise (fun a b => locCompatible (locOf a.1) b.1) →
    (∀ kv ∈ args, hasUnderscore kv.1 = true →
      goodParent rb (jsSplitUnderscore2 kv.1).1) →
    ∃ rb', args.foldlM (fun rb kv => processGenericStep rb kv.1 kv.2) rb = .ok rb' ∧
      ∀ kv ∈ args, contentAt rb' (locOf kv.1) = some kv.2 := by
  intro args
  induction args with
  | nil =>
      intro rb _ _
      exact ⟨rb, rfl, by simp⟩
  | cons kv tl ih =>
      intro rb hpw hgood
      obtain ⟨hhead, htail⟩ := List.pairwise_cons.mp hpw
      by_cases hu : hasUnderscore kv.1
      · have hg := hgood kv (List.mem_cons_self kv tl) hu
        have hstep := processGenericStep_nested rb kv.1 kv.2 hu hg
        set rb1 := setKey rb (jsSplitUnderscore2 kv.1).1
          (.vObj (setKey (innerAt rb (jsSplitUnderscore2 kv.1).1)
            (jsSplitUnderscore2 kv.1).2 kv.2)) with hrb1
        have hgood1 : ∀ b ∈ tl, hasUnderscore b.1 = true →
            goodParent rb1 (jsSplitUnderscore2 b.1).1 := by
          intro b hb hub
          by_cases hpp : (jsSplitUnderscore2 b.1).1 = (jsSplitUnderscore2 kv.1).1
          · right
            exact ⟨_, by rw [hrb1, hpp, getKey_setKey_self]⟩
          · have := hgood b (List.mem_cons_of_mem kv hb) hub
            rcases this with hnone | ⟨o, ho⟩
            · left
              rw [hrb1, getKey_setKey_ne _ _ _ _ (fun hc => hpp hc.symm)]
              exact hnone
            · right
              exact ⟨o, by rw [hrb1, getKey_setKey_ne _ _ _ _ (fun hc => hpp hc.symm)]
                           exact ho⟩
        obtain ⟨rb', hfold, hcont⟩ := ih rb1 htail hgood1
        refine ⟨rb', ?_, ?_⟩
        · rw [List.foldlM_cons, hstep]
          exact hfold
        · intro b hb
          rcases List.mem_cons.mp hb with rfl | hb
          · rw [processGenericFold_frame tl rb1 rb' hfold (locOf b.1) hhead]
            have hloc : locOf b.1
                = ((jsSplitUnderscore2 b.1).1, some (jsSplitUnderscore2 b.1).2) := by
              simp [locOf, hu]
            rw [hloc, contentAt_innerAt, hrb1]
            simp [innerAt, getKey_setKey_self, getKey_setKey_self]
          · exact hcont b hb
      · have hu' : hasUnderscore kv.1 = false := by simpa using hu
        have hstep := processGenericStep_plain rb kv.1 kv.2 hu'
        have hgood1 : ∀ b ∈ tl, hasUnderscore b.1 = true →
            goodParent (setKey rb kv.1 kv.2) (jsSplitUnderscore2 b.1).1 := by
          intro b hb hub
          have hcb := hhead b hb
          have hne : kv.1 ≠ (jsSplitUnderscore2 b.1).1 := by
            rcases hcb with hcb | ⟨_, hs2, _⟩
            · simpa [locOf, hu', hub] using hcb
            · simp [locOf, hu', Option.isSome] at hs2
          have := hgood b (List.mem_cons_of_mem kv hb) hub
          rcases this with hnone | ⟨o, ho⟩
          · left
            rw [getKey_setKey_ne _ _ _ _ hne]
            exact hnone
          · right
            exact ⟨o, by rw [getKey_setKey_ne _ _ _ _ hne]; exact ho⟩
        obtain ⟨rb', hfold, hcont⟩ := ih (setKey rb kv.1 kv.2) htail hgood1
        refine ⟨rb', ?_, ?_⟩
        · rw [List.foldlM_cons, hstep]
          exact hfold
        · intro b hb
          rcases List.mem_cons.mp hb with rfl | hb
          · rw [processGenericFold_frame tl _ rb' hfold (locOf b.1) hhead]
            simp [locOf, hu', contentAt, getKey_setKey_self]
          · exact hcont b hb

/-- C3 (amended): in generic reconstruction, a key containing an
underscore is split by `key.split("_", 2)` — parent is the text before
the first underscore, child is the text between the first and second
underscore (anything after a second underscore is dropped) — and the
value lands at `requestBody[parent][child]`; keys without an underscore
are copied top-level.  Stated for argument maps whose entries write
pairwise-distinct, non-colliding locations (otherwise the source's
last-write-wins iteration applies, per the spec's own edge case). -/
theorem processGeneric_first_split_spec (args : Obj)
    (hpw : args.Pairwise (fun a b => locCompatible (locOf a.1) b.1)) :
    ∃ rb', processGeneric args = .ok rb' ∧
      ∀ kv ∈ args,
        (hasUnderscore kv.1 = true →
          ∃ io, getKey rb' (jsSplitUnderscore2 kv.1).1 = some (.vObj io) ∧
            getKey io (jsSplitUnderscore2 kv.1).2 = some kv.2) ∧
        (hasUnderscore kv.1 = false → getKey rb' kv.1 = some kv.2) := by
  obtain ⟨rb', hfold, hcont⟩ := processGenericFold_spec args [] hpw
    (fun kv _ _ => Or.inl rfl)
  refine ⟨rb', hfold, ?_⟩
  intro kv hkv
  constructor
  · intro hu
    have := hcont kv hkv
    rw [show locOf kv.1 = ((jsSplitUnderscore2 kv.1).1, some (jsSplitUnderscore2 kv.1).2)
      from by simp [locOf, hu]] at this
    rcases hg : getKey rb' (jsSplitUnderscore2 kv.1).1 with _ | v0
    · rw [show contentAt rb' ((jsSplitUnderscore2 kv.1).1, some (jsSplitUnderscore2 kv.1).2)
        = none from by simp [contentAt, hg]] at this
      cases this
    · cases v0 with
      | vObj io =>
          refine ⟨io, rfl, ?_⟩
          rw [show contentAt rb' ((jsSplitUnderscore2 kv.1).1, some (jsSplitUnderscore2 kv.1).2)
            = getKey io (jsSplitUnderscore2 kv.1).2 from by simp [contentAt, hg]] at this
          exact this
      | vNull => simp [contentAt, hg] at this
      | vArr xs => simp [contentAt, hg] at this
      | vBool b => simp [contentAt, hg] at this
      | vNum n => simp [contentAt, hg] at this
      | vStr s => simp [contentAt, hg] at this
  · intro hu
    have := hcont kv hkv
    rw [show locOf kv.1 = (kv.1, none) from by simp [locOf, hu]] at this
    simpa [contentAt] using this

/-- C3 witness: the amended theorem applied to the concrete arguments
`\x7ba_b_c: 1, d: 2, a_e: 3\x7d` — the computed body is
`\x7ba: \x7bb: 1, e: 3\x7d, d: 2\x7d`, with `a_b_c` landing at `a.b`
(the `_c` remainder dropped) and `d` top-level. -/
theorem processGeneric_first_split_spec_witness :
    processGeneric [("a_b_c", .vNum 1), ("d", .vNum 2), ("a_e", .vNum 3)]
      = .ok [("a", .vObj [("b", .vNum 1), ("e", .vNum 3)]), ("d", .vNum 2)] ∧
    (∃ io, getKey [("a", Value.vObj [("b", Value.vNum 1), ("e", Value.vNum 3)]),
        ("d", Value.vNum 2)] "a" = some (.vObj io) ∧ getKey io "b" = some (Value.vNum 1)) ∧
    getKey [("a", Value.vObj [("b", Value.vNum 1), ("e", Value.vNum 3)]),
        ("d", Value.vNum 2)] "d" = some (Value.vNum 2) := by
  obtain ⟨rb', hok, hall⟩ := processGeneric_first_split_spec
    [("a_b_c", .vNum 1), ("d", .vNum 2), ("a_e", .vNum 3)] (by decide)
  have hrb : rb' = [("a", Value.vObj [("b", Value.vNum 1), ("e", Value.vNum 3)]),
      ("d", Value.vNum 2)] := by
    have h2 : Except.ok (ε := String) rb'
        = Except.ok [("a", Value.vObj [("b", Value.vNum 1), ("e", Value.vNum 3)]),
            ("d", Value.vNum 2)] := by rw [← hok]; rfl
    exact Except.ok.inj h2
  subst hrb
  refine ⟨hok, ?_, ?_⟩
  · exact (hall ("a_b_c", .vNum 1) (by simp)).1 (by decide)
  · exact (hall ("d", .vNum 2) (by simp)).2 (by decide)
